import Mathlib

/-!
Verification of the Civitai prompt-stats pipeline (`src/nodes.py`).

The Python source is shallowly embedded: pure helpers become Lean functions;
the stateful `execute` pipeline becomes a function on an explicit store
(hash memo, result memo, trigger memo) together with an environment record
holding the external world (filesystem stats, remote responses).  Network
effects are counted explicitly so that cache-hit claims about "no remote
requests" can be stated.
-/

namespace Civitai

/-- Whitespace as stripped by `str.strip()` (ASCII fragment). -/
def isWs (c : Char) : Bool :=
  c = ' ' || c = '\t' || c = '\n' || c = '\r'

/-- `str.strip()` on a character list: drop whitespace at both ends. -/
def trimL (cs : List Char) : List Char :=
  ((cs.dropWhile isWs).reverse.dropWhile isWs).reverse

/-!
## Tokenizer: model of `_parse_prompts`

The Python code runs `re.findall(r"<[^>]+>|\[[^\]]+\]|\([^)]+\)|[^,]+", text)`
and strips/filters the matches.  `findall` tries the four alternatives in
order at each scan position; a position matching none of them (a comma) is
skipped.  `<[^>]+>` matches iff the scan position holds `<`, some later `>`
exists, and at least one character stands between them; the match runs to the
first such `>`.  The fallback `[^,]+` is a maximal comma-free run and may
itself contain `<`, `[`, `(` when no bracket alternative fired at the
position.
-/

/-- For a bracket alternative `O[^C]+C` already positioned past the opening
character: the body up to the first closing character and the remainder after
it, or `none` when the body would be empty or no closer exists. -/
def closeSplit (close : Char) (cs : List Char) : Option (List Char × List Char) :=
  let body := cs.takeWhile (fun c => c ≠ close)
  match cs.dropWhile (fun c => c ≠ close) with
  | [] => none
  | _ :: rs => if body.isEmpty then none else some (body, rs)

/-- The fallback alternative `[^,]+` of the regex: a maximal comma-free run
starting at the scan position, or `none` when the position holds a comma (in
which case the whole pattern fails there and the scanner advances by one). -/
def commaRun (c : Char) (rest : List Char) : Option (List Char × List Char) :=
  if c = ',' then none
  else some (c :: rest.takeWhile (fun d => d ≠ ','), rest.dropWhile (fun d => d ≠ ','))

/-- One attempt of the regex `<[^>]+>|\[[^\]]+\]|\([^)]+\)|[^,]+` at a scan
position holding `c` followed by `rest`: the alternatives are tried in order,
and a bracket alternative can only fire when `c` is its opening character. -/
def tokenMatch (c : Char) (rest : List Char) : Option (List Char × List Char) :=
  if c = '<' then
    match closeSplit '>' rest with
    | some (body, rs) => some ('<' :: body ++ ['>'], rs)
    | none => commaRun c rest
  else if c = '[' then
    match closeSplit ']' rest with
    | some (body, rs) => some ('[' :: body ++ [']'], rs)
    | none => commaRun c rest
  else if c = '(' then
    match closeSplit ')' rest with
    | some (body, rs) => some ('(' :: body ++ [')'], rs)
    | none => commaRun c rest
  else commaRun c rest

/-- `re.findall` of the prompt regex: scan left to right, emitting each match
and advancing past it, or advancing one position where nothing matches.
`fuel` only serves structural recursion; one unit is spent per consumed
character at least, so `cs.length` units always suffice. -/
def tokenizeRawF : Nat → List Char → List (List Char)
  | 0, _ => []
  | _, [] => []
  | fuel + 1, c :: rest =>
    match tokenMatch c rest with
    | some (tok, rs) => tok :: tokenizeRawF fuel rs
    | none => tokenizeRawF fuel rest

/-- The raw regex matches of `_parse_prompts` on a character list. -/
def tokenizeRaw (cs : List Char) : List (List Char) :=
  tokenizeRawF cs.length cs

/-- `_parse_prompts` on a character list: guard on blank input, then strip
each raw match and drop matches that strip to nothing. -/
def parsePromptsL (cs : List Char) : List (List Char) :=
  if (trimL cs).isEmpty then []
  else ((tokenizeRaw cs).map trimL).filter (fun t => !t.isEmpty)

/-- `BaseCivitaiPromptStatsNode._parse_prompts`. -/
def parsePrompts (s : String) : List String :=
  (parsePromptsL s.data).map String.mk

/-!
## Formatter: model of `_format_tags_with_counts`
-/

/-- One output line `{i} : "{tag}" ({count})`. -/
def formatLine (i : Nat) (tag : String) (count : Nat) : String :=
  toString i ++ " : \"" ++ tag ++ "\" (" ++ toString count ++ ")"

/-- The list-comprehension body of `_format_tags_with_counts`:
`enumerate(items[:top_n])` rendered line by line. -/
def formatLines (items : List (String × Nat)) (topN : Nat) : List String :=
  (items.take topN).enum.map (fun p => formatLine p.1 p.2.1 p.2.2)

/-- `BaseCivitaiPromptStatsNode._format_tags_with_counts`. -/
def formatTagsWithCounts (items : List (String × Nat)) (topN : Nat) : String :=
  String.intercalate "\n" (formatLines items topN)

/-!
## Counting: model of `Counter(tokens).most_common()`

A Python `Counter` built from a token list holds each distinct token once, in
first-occurrence order, with its number of occurrences; `most_common()` sorts
by count descending with a stable sort, so ties keep first-occurrence order.
-/

/-- Distinct elements in first-occurrence order (insertion order of the
`Counter`'s keys); `seen` accumulates the keys already emitted. -/
def dedupFirstAux (seen : List String) : List String → List String
  | [] => []
  | x :: xs =>
    if x ∈ seen then dedupFirstAux seen xs
    else x :: dedupFirstAux (x :: seen) xs

/-- Distinct elements of a list in first-occurrence order. -/
def dedupFirst (xs : List String) : List String :=
  dedupFirstAux [] xs

/-- An ordered (token, count) list. -/
abbrev CountList := List (String × Nat)

/-- Stable descending insertion by count: `e` is placed after every element
with a strictly larger count and before the first element with a smaller or
equal one, so earlier elements win ties. -/
def insertDesc (e : String × Nat) : CountList → CountList
  | [] => [e]
  | x :: xs => if e.2 < x.2 then x :: insertDesc e xs else e :: x :: xs

/-- Stable sort by count descending.  A stable descending sort's output is
unique, so this matches the CPython `sorted(..., reverse-by-count)` used by
`Counter.most_common` while staying kernel-computable. -/
def sortCountDesc : CountList → CountList
  | [] => []
  | x :: xs => insertDesc x (sortCountDesc xs)

/-- `Counter(xs).most_common()`: each distinct token with its count, in
first-occurrence order, sorted stably by count descending. -/
def mostCommon (xs : List String) : CountList :=
  sortCountDesc ((dedupFirst xs).map (fun k => (k, xs.count k)))

/-!
## Data model: external world, persistent stores, parameters
-/

/-- The filesystem's view of one model file. `digest` is the value
`calculate_sha256` would produce from the file's bytes; `none` models a file
whose bytes cannot be read (digest computation raises). -/
structure FileInfo where
  mtime : Nat
  size : Nat
  digest : Option String
deriving DecidableEq

/-- The `meta` object of one remote image record. -/
structure Meta where
  prompt : String
  negativePrompt : String
deriving DecidableEq

/-- One record of a remote image page; `meta = none` covers both an absent
and an empty (falsy) `meta` object. -/
structure ImageItem where
  meta : Option Meta
deriving DecidableEq

/-- Response of `GET /model-versions/by-hash/{digest}`: `id` may be absent,
and `trainedWords` is only used when it is a list. -/
structure ModelInfo where
  id : Option Nat
  trainedWords : Option (List String)
deriving DecidableEq

/-- The external world, fixed across invocations: path resolution, file
stats, and the remote service's responses.  `resolve digest timeout = none`
models a failed by-hash lookup (`_get_model_version_info_by_hash` catches the
exception and returns `None` itself); `fetchPage id page sort timeout = none`
models a page request that raises.  `metaTriggers` abstracts the collaborator
pair `get_metadata`/`sort_tags_by_frequency` reading local embedded training
metadata for a LoRA file. -/
structure Env where
  fullPath : String → String → Option String
  fileInfo : String → Option FileInfo
  resolve : String → Nat → Option ModelInfo
  fetchPage : Nat → Nat → String → Nat → Option (List ImageItem)
  metaTriggers : String → List String

/-- The persistent stores under the cache directory: the hash memo
(`hash_cache.json`), one result entry per cache file name, and the LoRA
trigger memo (`civitai_triggers_cache.json`).  Python `dict` insertion is
modelled by prepending, looked up front-first. -/
structure Store where
  hashCache : List (String × String)
  resultCache : List (String × (CountList × CountList))
  triggerCache : List (String × List String)
deriving DecidableEq

/-- Network / hashing effects of one invocation: number of
`calculate_sha256` runs, by-hash lookups, and page HTTP requests. -/
structure Eff where
  shaRuns : Nat
  resolveCalls : Nat
  pageFetches : Nat
deriving DecidableEq

/-- The parameters of `execute`, as declared by `INPUT_TYPES`. -/
structure Params where
  file_name : String
  top_n : Nat
  max_pages : Nat
  sort : String
  timeout : Nat
  retries : Nat
  force_refresh : String
deriving DecidableEq

/-- The hash-memo key `f"{file_path}|{mtime}|{size}"`. -/
def hashKey (path : String) (fi : FileInfo) : String :=
  path ++ "|" ++ toString fi.mtime ++ "|" ++ toString fi.size

/-- `get_cached_sha256`: consult the hash memo first; on a miss run the raw
digest routine and store the result.  Returns the digest, the updated memo
and the number of raw digest runs, or `none` when the digest computation
raises on an unreadable file. -/
def getCachedSha256 (path : String) (fi : FileInfo) (hc : List (String × String)) :
    Option (String × List (String × String) × Nat) :=
  match hc.lookup (hashKey path fi) with
  | some d => some (d, hc, 0)
  | none =>
    match fi.digest with
    | some d => some (d, (hashKey path fi, d) :: hc, 1)
    | none => none

/-- The result-memo file name `f"{file_hash}_{sort}_{max_pages}.json"`. -/
def resultCacheKey (digest sort : String) (maxPages : Nat) : String :=
  digest ++ "_" ++ sort ++ "_" ++ toString maxPages ++ ".json"

/-- The sort normalization in `execute`: any value outside the enumerated
set is replaced by `"Newest"` before the requests are issued. -/
def sortParam (s : String) : String :=
  if s = "Most Reactions" || s = "Most Comments" || s = "Newest" then s
  else "Newest"

/-- Positive prompt tokens contributed by one image record. -/
def itemPosTokens (it : ImageItem) : List String :=
  match it.meta with
  | some m => parsePrompts m.prompt
  | none => []

/-- Negative prompt tokens contributed by one image record. -/
def itemNegTokens (it : ImageItem) : List String :=
  match it.meta with
  | some m => parsePrompts m.negativePrompt
  | none => []

/-- Positive tokens of one fetched page, in record order. -/
def pagePosTokens (items : List ImageItem) : List String :=
  (items.map itemPosTokens).flatten

/-- Negative tokens of one fetched page, in record order. -/
def pageNegTokens (items : List ImageItem) : List String :=
  (items.map itemNegTokens).flatten

/-- The positive-token aggregation of `execute`: tokens of the pages fetched
in arrival order `order` (a raising page contributing none), counted into
ordered (token, count) entries. -/
def aggPos (env : Env) (vid : Nat) (sortp : String) (timeout : Nat)
    (order : List Nat) : CountList :=
  mostCommon ((order.map (fun pg =>
    (env.fetchPage vid pg sortp timeout).getD [])).map pagePosTokens).flatten

/-- The negative-token aggregation of `execute`. -/
def aggNeg (env : Env) (vid : Nat) (sortp : String) (timeout : Nat)
    (order : List Nat) : CountList :=
  mostCommon ((order.map (fun pg =>
    (env.fetchPage vid pg sortp timeout).getD [])).map pageNegTokens).flatten

/-- Result of the base `execute`: the two formatted reports, the stores
after the call, and the effect counts. -/
structure ExecOut where
  pos : String
  neg : String
  store : Store
  eff : Eff
deriving DecidableEq

/-- `BaseCivitaiPromptStatsNode.execute`.  `order` is the order in which the
submitted page futures complete (`as_completed`); the real pool makes it an
arbitrary permutation of `range(1, max_pages + 1)`.  A page whose fetch
raises contributes no items (the exception is caught and logged).  All pages
are submitted, so each costs one HTTP request regardless of outcome; the
`retries` parameter is never consulted. -/
def execute (env : Env) (folderKey : String) (p : Params) (st : Store)
    (order : List Nat) : ExecOut :=
  match env.fullPath folderKey p.file_name with
  | none => ⟨"", "", st, ⟨0, 0, 0⟩⟩
  | some path =>
    if path = "" then ⟨"", "", st, ⟨0, 0, 0⟩⟩
    else
      match env.fileInfo path with
      | none => ⟨"", "", st, ⟨0, 0, 0⟩⟩
      | some fi =>
        match getCachedSha256 path fi st.hashCache with
        | none => ⟨"", "", st, ⟨2, 0, 0⟩⟩
        | some (digest, hc, sruns) =>
          let st1 : Store := { st with hashCache := hc }
          let key := resultCacheKey digest p.sort p.max_pages
          match (if p.force_refresh = "no" then st1.resultCache.lookup key
                 else none) with
          | some entry =>
            ⟨formatTagsWithCounts entry.1 p.top_n,
             formatTagsWithCounts entry.2 p.top_n, st1, ⟨sruns, 0, 0⟩⟩
          | none =>
            match env.resolve digest p.timeout with
            | none => ⟨"", "", st1, ⟨sruns, 1, 0⟩⟩
            | some info =>
              match info.id with
              | none => ⟨"", "", st1, ⟨sruns, 1, 0⟩⟩
              | some vid =>
                if vid = 0 then ⟨"", "", st1, ⟨sruns, 1, 0⟩⟩
                else
                  let posC := aggPos env vid (sortParam p.sort) p.timeout order
                  let negC := aggNeg env vid (sortParam p.sort) p.timeout order
                  let st2 : Store :=
                    { st1 with resultCache := (key, (posC, negC)) :: st1.resultCache }
                  ⟨formatTagsWithCounts posC p.top_n,
                   formatTagsWithCounts negC p.top_n, st2,
                   ⟨sruns, 1, order.length⟩⟩

/-- `CivitaiPromptStatsLORA._get_civitai_triggers`: filename-keyed trigger
memo, falling back to the by-hash lookup (with its default timeout of 10).
Returns the trigger list, the updated memo and the lookup count. -/
def getCivitaiTriggers (env : Env) (file_name file_hash force_refresh : String)
    (tc : List (String × List String)) :
    List String × List (String × List String) × Nat :=
  match (if force_refresh = "no" then tc.lookup file_name else none) with
  | some triggers => (triggers, tc, 0)
  | none =>
    let triggers :=
      match env.resolve file_hash 10 with
      | some info => info.trainedWords.getD []
      | none => []
    (triggers, (file_name, triggers) :: tc, 1)

/-- Result of the LoRA `execute`: four outputs, stores, effects. -/
structure LoraOut where
  pos : String
  neg : String
  metaTrig : String
  civTrig : String
  store : Store
  eff : Eff
deriving DecidableEq

/-- Placeholder for an empty metadata trigger list. -/
def metaPlaceholder : String := "[空: 未在模型元数据中找到触发词]"

/-- Placeholder for an empty Civitai trigger list. -/
def civPlaceholder : String := "[空: 未在 Civitai API 中找到触发词]"

/-- `CivitaiPromptStatsLORA.execute`: gather the two trigger sources, then
delegate to the base `execute` and append the comma-joined trigger strings
(a placeholder when a list is empty).  A failing digest computation in the
trigger step is caught, leaving the Civitai trigger list empty. -/
def loraExecute (env : Env) (p : Params) (st : Store) (order : List Nat) :
    LoraOut :=
  match env.fullPath "loras" p.file_name with
  | none => ⟨"", "", "", "", st, ⟨0, 0, 0⟩⟩
  | some path =>
    if path = "" then ⟨"", "", "", "", st, ⟨0, 0, 0⟩⟩
    else
      match env.fileInfo path with
      | none => ⟨"", "", "", "", st, ⟨0, 0, 0⟩⟩
      | some fi =>
        let metadataTriggers := env.metaTriggers p.file_name
        let step1 :=
          match getCachedSha256 path fi st.hashCache with
          | none => (([] : List String), st, Eff.mk 2 0 0)
          | some (h, hc, n) =>
            let t := getCivitaiTriggers env p.file_name h p.force_refresh
              st.triggerCache
            (t.1, { st with hashCache := hc, triggerCache := t.2.1 },
             Eff.mk n t.2.2 0)
        let metaStr :=
          if metadataTriggers.isEmpty then metaPlaceholder
          else String.intercalate ", " metadataTriggers
        let civStr :=
          if step1.1.isEmpty then civPlaceholder
          else String.intercalate ", " step1.1
        let base := execute env "loras" p step1.2.1 order
        ⟨base.pos, base.neg, metaStr, civStr, base.store,
         ⟨step1.2.2.shaRuns + base.eff.shaRuns,
          step1.2.2.resolveCalls + base.eff.resolveCalls,
          step1.2.2.pageFetches + base.eff.pageFetches⟩⟩

/-!
## Decimal rendering

`hashKey` and `resultCacheKey` embed numbers through `toString`; the
reference digit list below lets injectivity of that rendering be proved, so
that distinct (mtime, size) stats provably address distinct memo keys.
-/

/-- The decimal digits of `n`, most significant first (reference
implementation of `Nat.repr` without fuel or accumulator). -/
def digitsM (n : Nat) : List Char :=
  if n < 10 then [Nat.digitChar n]
  else digitsM (n / 10) ++ [Nat.digitChar (n % 10)]
termination_by n
decreasing_by exact Nat.div_lt_self (by omega) (by omega)

/-!
## Page fetch attempts (C2)

`_fetch_images_page` issues exactly one `requests.get`; there is no retry
loop anywhere and the `retries` parameter is never read.  To compare with the
claimed behaviour, both the code's fetch and the claimed retrying fetch are
stated against an oracle giving the outcome of the k-th would-be HTTP attempt
(`none` = timeout / transport error).
-/

/-- `_fetch_images_page` against the attempt oracle: the result is the sole
attempt's outcome, and exactly one attempt is made. -/
def fetchImagesPageModel (attempts : Nat → Option (List ImageItem)) :
    Option (List ImageItem) × Nat :=
  (attempts 0, 1)

/-- Modelled from the spec: the retry loop claim C2 describes (`_fetch_images_page`
as the spec words it), starting at attempt `k` with `b` retries left; the
200ms backoff has no observable effect in this time-free model.  Returns the
final outcome and the number of attempts made. -/
def fetchPageSpecFrom (attempts : Nat → Option (List ImageItem)) :
    Nat → Nat → Option (List ImageItem) × Nat
  | k, 0 => (attempts k, k + 1)
  | k, b + 1 =>
    match attempts k with
    | some r => (some r, k + 1)
    | none => fetchPageSpecFrom attempts (k + 1) b

/-- Modelled from the spec: a page fetch re-attempted up to `maxRetries`
additional times after a failure. -/
def fetchPageSpec (attempts : Nat → Option (List ImageItem))
    (maxRetries : Nat) : Option (List ImageItem) × Nat :=
  fetchPageSpecFrom attempts 0 maxRetries

/-!
## Claim-side tokenizer (C4)

The claim describes the fallback alternative as "a maximal comma-free run
containing none of `<`, `[`, `(`".  The definitions below follow that
wording so it can be compared with the regex model above.
-/

/-- Claim C4's fallback: a maximal run containing no comma and none of
`<`, `[`, `(`; it cannot start at one of those characters. -/
def specRunC4 (c : Char) (rest : List Char) : Option (List Char × List Char) :=
  if c = ',' || c = '<' || c = '[' || c = '(' then none
  else
    some (c :: rest.takeWhile (fun d => !(d = ',' || d = '<' || d = '[' || d = '(')),
      rest.dropWhile (fun d => !(d = ',' || d = '<' || d = '[' || d = '(')))

/-- Claim C4's match attempt at one scan position: bracket spans in priority
order, then the restricted run. -/
def tokenMatchSpecC4 (c : Char) (rest : List Char) : Option (List Char × List Char) :=
  if c = '<' then
    match closeSplit '>' rest with
    | some (body, rs) => some ('<' :: body ++ ['>'], rs)
    | none => specRunC4 c rest
  else if c = '[' then
    match closeSplit ']' rest with
    | some (body, rs) => some ('[' :: body ++ [']'], rs)
    | none => specRunC4 c rest
  else if c = '(' then
    match closeSplit ')' rest with
    | some (body, rs) => some ('(' :: body ++ [')'], rs)
    | none => specRunC4 c rest
  else specRunC4 c rest

/-- Claim C4's scan, same driver as `tokenizeRawF`. -/
def tokenizeSpecC4F : Nat → List Char → List (List Char)
  | 0, _ => []
  | _, [] => []
  | fuel + 1, c :: rest =>
    match tokenMatchSpecC4 c rest with
    | some (tok, rs) => tok :: tokenizeSpecC4F fuel rs
    | none => tokenizeSpecC4F fuel rest

/-- The tokenizer exactly as claim C4 words it. -/
def parsePromptsSpecC4 (s : String) : List String :=
  (if (trimL s.data).isEmpty then []
   else ((tokenizeSpecC4F s.data.length s.data).map trimL).filter
     (fun t => !t.isEmpty)).map String.mk

/-- Claim C5's formatter: skip entries whose token trims to nothing, index
only the emitted lines. -/
def formatSpecC5 (items : List (String × Nat)) (topN : Nat) : String :=
  String.intercalate "\n"
    (((items.filter (fun e => !(trimL e.1.data).isEmpty)).take topN).enum.map
      (fun p => formatLine p.1 p.2.1 p.2.2))

/-!
## Trim lemmas
-/

theorem trimL_all_ws_eq_nil {cs : List Char} (h : (trimL cs).all isWs) :
    trimL cs = [] := by
  by_contra hne
  have hr : (cs.dropWhile isWs).reverse.dropWhile isWs ≠ [] := by
    intro h0
    exact hne (by simp [trimL, h0])
  have hhead :
      isWs (((cs.dropWhile isWs).reverse.dropWhile isWs).head hr) = false :=
    List.head_dropWhile_not isWs _ hr
  have hmem : ((cs.dropWhile isWs).reverse.dropWhile isWs).head hr ∈ trimL cs := by
    unfold trimL
    rw [List.mem_reverse]
    exact List.head_mem hr
  have := List.all_eq_true.mp h _ hmem
  rw [hhead] at this
  exact Bool.false_ne_true this

theorem parsePrompts_token_sound {s : String} {t : String}
    (ht : t ∈ parsePrompts s) : t ≠ "" ∧ t.data.all isWs = false := by
  unfold parsePrompts at ht
  rcases List.mem_map.mp ht with ⟨u, hu, rfl⟩
  unfold parsePromptsL at hu
  by_cases hg : (trimL s.data).isEmpty
  · simp [hg] at hu
  · rw [if_neg hg] at hu
    rcases List.mem_filter.mp hu with ⟨humem, hne⟩
    rcases List.mem_map.mp humem with ⟨raw, -, rfl⟩
    have hnil : trimL raw ≠ [] := by
      intro h0
      rw [h0] at hne
      simp at hne
    refine ⟨?_, ?_⟩
    · intro heq
      have : trimL raw = [] := by
        have := congrArg String.data heq
        simpa using this
      exact hnil this
    · show (trimL raw).all isWs = false
      cases hall : (trimL raw).all isWs
      · rfl
      · exact absurd (trimL_all_ws_eq_nil hall) hnil

theorem parsePrompts_blank {s : String} (h : s.data.all isWs) :
    parsePrompts s = [] := by
  have : trimL s.data = [] := by
    apply trimL_all_ws_eq_nil
    unfold trimL
    refine List.all_eq_true.mpr (fun c hc => ?_)
    have hc' : c ∈ s.data := by
      rw [List.mem_reverse] at hc
      have h1 := (List.dropWhile_sublist isWs).subset hc
      rw [List.mem_reverse] at h1
      exact (List.dropWhile_sublist isWs).subset h1
    exact List.all_eq_true.mp h _ hc'
  unfold parsePrompts parsePromptsL
  simp [this]

/-- C4, counterexample.  The claim's fallback "maximal comma-free run
containing none of `<`, `[`, `(`" would split `"a<b>"` into `"a"` and
`"<b>"`, but the code's fallback `[^,]+` swallows the whole string once the
scan position is not itself at a bracket: `_parse_prompts("a<b>")` is
`["a<b>"]`. -/
theorem C4_counterexample :
    parsePrompts "a<b>" = ["a<b>"] ∧
    parsePromptsSpecC4 "a<b>" = ["a", "<b>"] ∧
    parsePrompts "a<b>" ≠ parsePromptsSpecC4 "a<b>" := by
  refine ⟨by decide, by decide, by decide⟩

/-- C4, amended.  `tokenize` returns the empty sequence on blank input, and
otherwise scans left to right emitting a maximal `<...>`, `[...]` or `(...)`
span when the scan position is at the opening bracket of one, and otherwise
a maximal comma-free run (which may itself contain `<`, `[`, `(`); commas
match nothing and are skipped; each match is trimmed and dropped if empty.
In particular the example splits as stated and no returned token is empty or
whitespace-only. -/
theorem C4_theorem :
    (∀ s : String, s.data.all isWs → parsePrompts s = []) ∧
    parsePrompts "(masterpiece:1.2), best quality, <lora:x:1>" =
      ["(masterpiece:1.2)", "best quality", "<lora:x:1>"] ∧
    (∀ s t : String, t ∈ parsePrompts s → t ≠ "" ∧ t.data.all isWs = false) :=
  ⟨fun _ h => parsePrompts_blank h, by decide,
   fun _ _ ht => parsePrompts_token_sound ht⟩

/-- C4, witness for the amended theorem's hypotheses at concrete inputs. -/
theorem C4_witness :
    parsePrompts "  " = [] ∧
    ("best quality" ≠ "" ∧ "best quality".data.all isWs = false) :=
  ⟨(C4_theorem.1 "  " (by decide)),
   (C4_theorem.2.2 "(masterpiece:1.2), best quality, <lora:x:1>" "best quality"
     (by decide))⟩

/-!
## Formatter claims (C5)
-/

/-- C5, counterexample.  The code's `_format_tags_with_counts` renders every
entry of `items[:top_n]`, including one whose token is empty: on
`[("", 5)]` with `top_n = 1` it emits the line `0 : "" (5)`, where the claim
says the entry is skipped (yielding no lines). -/
theorem C5_counterexample :
    formatTagsWithCounts [("", 5)] 1 = "0 : \"\" (5)" ∧
    formatSpecC5 [("", 5)] 1 = "" ∧
    formatTagsWithCounts [("", 5)] 1 ≠ formatSpecC5 [("", 5)] 1 := by
  refine ⟨by decide, by decide, by decide⟩

/-- C5, amended.  `format` renders exactly the first `min(topN, length)`
entries, one line each in the form `{index} : "{token}" ({count})` with a
zero-based index over the truncated list; no entry is skipped, empty or not.
In particular `format([("a",5),("b",3)], topN=1)` is exactly the single line
`0 : "a" (5)`. -/
theorem C5_theorem :
    formatTagsWithCounts [("a", 5), ("b", 3)] 1 = "0 : \"a\" (5)" ∧
    (∀ (items : List (String × Nat)) (topN : Nat),
      (formatLines items topN).length = min topN items.length) ∧
    (∀ (items : List (String × Nat)) (topN i : Nat), i < topN →
      (formatLines items topN)[i]? =
        items[i]?.map (fun e => formatLine i e.1 e.2)) := by
  refine ⟨by decide, fun items topN => by simp [formatLines], ?_⟩
  intro items topN i hi
  unfold formatLines
  rw [List.getElem?_map, List.getElem?_enum, List.getElem?_take_of_lt hi]
  cases items[i]? <;> rfl

/-- C5, witness: the index characterization at a concrete input. -/
theorem C5_witness :
    (formatLines [("a", 5), ("b", 3)] 2)[1]? =
      [("a", 5), ("b", 3)][1]?.map (fun e => formatLine 1 e.1 e.2) :=
  C5_theorem.2.2 [("a", 5), ("b", 3)] 2 1 (by decide)

/-!
## Aggregation is order-insensitive (C9)
-/

theorem mem_dedupFirstAux {a : String} {xs : List String} : ∀ {seen : List String},
    a ∈ dedupFirstAux seen xs ↔ (a ∈ xs ∧ a ∉ seen) := by
  induction xs with
  | nil => intro seen; simp [dedupFirstAux]
  | cons x xs ih =>
    intro seen
    unfold dedupFirstAux
    by_cases hx : x ∈ seen
    · rw [if_pos hx, ih]
      constructor
      · rintro ⟨h1, h2⟩; exact ⟨List.mem_cons_of_mem _ h1, h2⟩
      · rintro ⟨h1, h2⟩
        rcases List.mem_cons.mp h1 with rfl | h1
        · exact absurd hx h2
        · exact ⟨h1, h2⟩
    · rw [if_neg hx]
      constructor
      · intro h
        rcases List.mem_cons.mp h with rfl | h
        · exact ⟨List.mem_cons_self _ _, hx⟩
        · rw [ih] at h
          exact ⟨List.mem_cons_of_mem _ h.1,
            fun hs => h.2 (List.mem_cons_of_mem _ hs)⟩
      · rintro ⟨h1, h2⟩
        rcases List.mem_cons.mp h1 with rfl | h1
        · exact List.mem_cons_self _ _
        · by_cases hax : a = x
          · subst hax; exact List.mem_cons_self _ _
          · apply List.mem_cons_of_mem
            rw [ih]
            exact ⟨h1, fun hs => (List.mem_cons.mp hs).elim hax h2⟩

theorem nodup_dedupFirstAux {xs : List String} : ∀ {seen : List String},
    (dedupFirstAux seen xs).Nodup := by
  induction xs with
  | nil => intro seen; simp [dedupFirstAux]
  | cons x xs ih =>
    intro seen
    unfold dedupFirstAux
    by_cases hx : x ∈ seen
    · rw [if_pos hx]; exact ih
    · rw [if_neg hx]
      refine List.nodup_cons.mpr ⟨fun hmem => ?_, ih⟩
      rw [mem_dedupFirstAux] at hmem
      exact hmem.2 (List.mem_cons_self _ _)

theorem insertDesc_perm (e : String × Nat) (l : CountList) :
    (insertDesc e l).Perm (e :: l) := by
  induction l with
  | nil => exact List.Perm.refl _
  | cons x xs ih =>
    unfold insertDesc
    by_cases h : e.2 < x.2
    · rw [if_pos h]
      exact (ih.cons x).trans (List.Perm.swap e x xs)
    · rw [if_neg h]

theorem sortCountDesc_perm (l : CountList) : (sortCountDesc l).Perm l := by
  induction l with
  | nil => exact List.Perm.refl _
  | cons x xs ih =>
    exact (insertDesc_perm x (sortCountDesc xs)).trans (ih.cons x)

theorem mostCommon_perm {xs ys : List String} (h : xs.Perm ys) :
    (mostCommon xs).Perm (mostCommon ys) := by
  unfold mostCommon
  have hfun : (fun k => (k, xs.count k)) = (fun k => (k, ys.count k)) :=
    funext fun k => by rw [h.count_eq]
  have hd : (dedupFirst xs).Perm (dedupFirst ys) := by
    refine (List.perm_ext_iff_of_nodup nodup_dedupFirstAux nodup_dedupFirstAux).mpr
      (fun a => ?_)
    simp only [dedupFirst, mem_dedupFirstAux]
    simp [h.mem_iff]
  have base : (sortCountDesc ((dedupFirst xs).map fun k => (k, xs.count k))).Perm
      ((dedupFirst ys).map fun k => (k, ys.count k)) := by
    rw [← hfun]
    exact (sortCountDesc_perm _).trans (hd.map _)
  exact base.trans (sortCountDesc_perm _).symm

/-- C9.  The aggregation step of `execute` — counting the tokens of the
fetched pages into (token, count) entries — is invariant under permutation
of the page arrival order: two arrival orders that are permutations of each
other produce permutation-equal (same multiset) positive and negative count
lists. -/
theorem C9_theorem (env : Env) (vid timeout : Nat) (sortp : String)
    (order1 order2 : List Nat) (h : order1.Perm order2) :
    (aggPos env vid sortp timeout order1).Perm
      (aggPos env vid sortp timeout order2) ∧
    (aggNeg env vid sortp timeout order1).Perm
      (aggNeg env vid sortp timeout order2) :=
  ⟨mostCommon_perm ((h.map _).map pagePosTokens).flatten,
   mostCommon_perm ((h.map _).map pageNegTokens).flatten⟩

/-- C9, witness: two concrete arrival orders of two concrete pages. -/
theorem C9_witness :
    ([1, 2] : List Nat).Perm [2, 1] ∧
    (aggPos ⟨fun _ _ => none, fun _ => none, fun _ _ => none,
        fun _ pg _ _ => if pg = 1 then some [⟨some ⟨"a, b", "x"⟩⟩]
          else some [⟨some ⟨"b", ""⟩⟩],
        fun _ => []⟩ 7 "Newest" 10 [1, 2]).Perm
      (aggPos ⟨fun _ _ => none, fun _ => none, fun _ _ => none,
        fun _ pg _ _ => if pg = 1 then some [⟨some ⟨"a, b", "x"⟩⟩]
          else some [⟨some ⟨"b", ""⟩⟩],
        fun _ => []⟩ 7 "Newest" 10 [2, 1]) :=
  ⟨by decide,
   (C9_theorem ⟨fun _ _ => none, fun _ => none, fun _ _ => none,
      fun _ pg _ _ => if pg = 1 then some [⟨some ⟨"a, b", "x"⟩⟩]
        else some [⟨some ⟨"b", ""⟩⟩],
      fun _ => []⟩ 7 10 "Newest" [1, 2] [2, 1] (by decide)).1⟩

/-!
## Result-cache addressing (C6)
-/

set_option maxRecDepth 10000 in
theorem natRepr_inj_le50 : ∀ mp1 < 51, ∀ mp2 < 51,
    (toString mp1 = toString mp2 ↔ mp1 = mp2) := by decide

/-- C6.  With the digest held fixed, two invocations address the same
result-cache file exactly when they agree on `sort` and `max_pages`; every
other parameter — in particular `top_n` — is absent from the key, so changing
only it addresses the same entry (the cache stores the full count lists and
`top_n` is applied at formatting time). -/
theorem C6_theorem (digest : String) (p q : Params)
    (hps : p.sort = "Most Reactions" ∨ p.sort = "Most Comments" ∨ p.sort = "Newest")
    (hqs : q.sort = "Most Reactions" ∨ q.sort = "Most Comments" ∨ q.sort = "Newest")
    (hpm : 1 ≤ p.max_pages ∧ p.max_pages ≤ 50)
    (hqm : 1 ≤ q.max_pages ∧ q.max_pages ≤ 50) :
    resultCacheKey digest p.sort p.max_pages =
        resultCacheKey digest q.sort q.max_pages ↔
      (p.sort = q.sort ∧ p.max_pages = q.max_pages) := by
  constructor
  · intro h
    have hd := congrArg String.data h
    rcases hps with hp1 | hp1 | hp1 <;> rcases hqs with hq1 | hq1 | hq1 <;>
      rw [hp1, hq1] at hd <;>
      simp only [resultCacheKey, String.data_append] at hd <;>
      simp at hd <;>
      exact ⟨hp1.trans hq1.symm,
        (natRepr_inj_le50 _ (by omega) _ (by omega)).mp (String.ext hd)⟩
  · rintro ⟨h1, h2⟩
    rw [h1, h2]

/-- C6, witness: same sort and page count address the same entry even when
`top_n` differs (20 vs 5). -/
theorem C6_witness :
    ((1:Nat) ≤ 3 ∧ (3:Nat) ≤ 50) ∧
    (resultCacheKey "d" "Most Reactions" 3 = resultCacheKey "d" "Most Reactions" 3 ↔
      (("Most Reactions" : String) = "Most Reactions" ∧ (3:Nat) = 3)) :=
  ⟨⟨by decide, by decide⟩,
   C6_theorem "d" ⟨"f", 20, 3, "Most Reactions", 10, 2, "no"⟩
     ⟨"f", 5, 3, "Most Reactions", 10, 2, "no"⟩ (Or.inl rfl) (Or.inl rfl)
     ⟨by decide, by decide⟩ ⟨by decide, by decide⟩⟩

/-!
## Injectivity of the decimal rendering
-/

theorem toDigitsCore_eq_digitsM : ∀ (fuel n : Nat) (acc : List Char), n < fuel →
    Nat.toDigitsCore 10 fuel n acc = digitsM n ++ acc := by
  intro fuel
  induction fuel with
  | zero => intro n acc h; omega
  | succ fuel ih =>
    intro n acc h
    rw [Nat.toDigitsCore]
    by_cases h10 : n / 10 = 0
    · have hn : n < 10 := by omega
      rw [digitsM, if_pos hn]
      simp [h10, Nat.mod_eq_of_lt hn]
    · have hlt : n / 10 < fuel := by
        have : n / 10 < n := Nat.div_lt_self (by omega) (by omega)
        omega
      simp only [h10, if_neg, ite_false]
      rw [ih (n / 10) _ hlt]
      conv_rhs => rw [digitsM, if_neg (by omega : ¬ n < 10)]
      simp

theorem digitChar_toNat {n : Nat} (h : n < 10) : (Nat.digitChar n).toNat = 48 + n := by
  interval_cases n <;> rfl

theorem evalD_digitsM : ∀ n : Nat, ∀ a : Nat,
    List.foldl (fun a c => 10 * a + (c.toNat - 48)) a (digitsM n) =
      a * 10 ^ (digitsM n).length + n := by
  intro n
  induction n using Nat.strong_induction_on with
  | _ n ih =>
    intro a
    by_cases h : n < 10
    · rw [digitsM, if_pos h]
      simp [digitChar_toNat h]
      omega
    · rw [digitsM, if_neg h]
      rw [List.foldl_append]
      rw [ih (n / 10) (Nat.div_lt_self (by omega) (by omega)) a]
      have hmod : (Nat.digitChar (n % 10)).toNat = 48 + n % 10 :=
        digitChar_toNat (Nat.mod_lt _ (by omega))
      simp [hmod]
      have hdm := Nat.div_add_mod n 10
      have hpow : 10 * (a * 10 ^ (digitsM (n / 10)).length) =
          a * 10 ^ ((digitsM (n / 10)).length + 1) := by ring
      omega

theorem natToString_data (n : Nat) : (toString n).data = digitsM n := by
  show (Nat.repr n).data = digitsM n
  unfold Nat.repr Nat.toDigits
  rw [toDigitsCore_eq_digitsM (n + 1) n [] (by omega)]
  simp [List.asString]

theorem natToString_inj {m n : Nat} (h : toString m = toString n) : m = n := by
  have hd : digitsM m = digitsM n := by
    rw [← natToString_data, ← natToString_data, h]
  have em := evalD_digitsM m 0
  rw [hd] at em
  have en := evalD_digitsM n 0
  omega

theorem digitChar_ne_pipe {k : Nat} (h : k < 10) : Nat.digitChar k ≠ '|' := by
  interval_cases k <;> decide

theorem mem_digitsM_ne_pipe : ∀ n : Nat, ∀ c ∈ digitsM n, c ≠ '|' := by
  intro n
  induction n using Nat.strong_induction_on with
  | _ n ih =>
    intro c hc
    by_cases h : n < 10
    · rw [digitsM, if_pos h] at hc
      simp at hc
      subst hc
      exact digitChar_ne_pipe h
    · rw [digitsM, if_neg h] at hc
      rcases List.mem_append.mp hc with hc | hc
      · exact ih (n / 10) (Nat.div_lt_self (by omega) (by omega)) c hc
      · simp at hc
        subst hc
        exact digitChar_ne_pipe (Nat.mod_lt _ (by omega))

theorem append_pipe_inj : ∀ (l1 l1' l2 l2' : List Char),
    (∀ c ∈ l1, c ≠ '|') → (∀ c ∈ l1', c ≠ '|') →
    l1 ++ '|' :: l2 = l1' ++ '|' :: l2' → l1 = l1' ∧ l2 = l2' := by
  intro l1
  induction l1 with
  | nil =>
    intro l1' l2 l2' h1 h1' h
    cases l1' with
    | nil => simpa using h
    | cons x xs =>
      exfalso
      simp at h
      exact h1' x (List.mem_cons_self _ _) h.1.symm
  | cons x xs ih =>
    intro l1' l2 l2' h1 h1' h
    cases l1' with
    | nil =>
      exfalso
      simp at h
      exact h1 x (List.mem_cons_self _ _) h.1
    | cons y ys =>
      simp at h
      obtain ⟨rfl, h2⟩ := h
      have := ih ys l2 l2' (fun c hc => h1 c (List.mem_cons_of_mem _ hc))
        (fun c hc => h1' c (List.mem_cons_of_mem _ hc)) h2
      exact ⟨by rw [this.1], this.2⟩

theorem hashKey_stats_inj (path : String) (fi1 fi2 : FileInfo)
    (h : hashKey path fi2 = hashKey path fi1) :
    fi2.mtime = fi1.mtime ∧ fi2.size = fi1.size := by
  have hd := congrArg String.data h
  simp [hashKey, String.data_append] at hd
  have hsplit := append_pipe_inj _ _ _ _
    (fun c hc => by
      rw [natToString_data] at hc
      exact mem_digitsM_ne_pipe _ c hc)
    (fun c hc => by
      rw [natToString_data] at hc
      exact mem_digitsM_ne_pipe _ c hc) hd
  exact ⟨natToString_inj (String.ext hsplit.1),
    natToString_inj (String.ext hsplit.2)⟩

/-!
## Hash memo (C7)
-/

theorem getCachedSha256_stable {path : String} {fi : FileInfo}
    {hc hc1 : List (String × String)} {d1 : String} {n1 : Nat}
    (h : getCachedSha256 path fi hc = some (d1, hc1, n1)) :
    getCachedSha256 path fi hc1 = some (d1, hc1, 0) := by
  unfold getCachedSha256 at h ⊢
  cases hl : hc.lookup (hashKey path fi) with
  | some d0 =>
    rw [hl] at h
    simp only [Option.some.injEq, Prod.mk.injEq] at h
    obtain ⟨rfl, rfl, -⟩ := h
    rw [hl]
  | none =>
    rw [hl] at h
    cases hd : fi.digest with
    | none => rw [hd] at h; simp at h
    | some dd =>
      rw [hd] at h
      simp only [Option.some.injEq, Prod.mk.injEq] at h
      obtain ⟨rfl, rfl, -⟩ := h
      simp [List.lookup_cons_self]

theorem getCachedSha256_runs {path : String} {fi : FileInfo}
    {hc hc1 : List (String × String)} {d1 : String} {n1 : Nat}
    (h : getCachedSha256 path fi hc = some (d1, hc1, n1)) :
    (n1 = 0 ↔ (hc.lookup (hashKey path fi)).isSome) ∧ n1 ≤ 1 := by
  unfold getCachedSha256 at h
  cases hl : hc.lookup (hashKey path fi) with
  | some d0 =>
    rw [hl] at h
    simp only [Option.some.injEq, Prod.mk.injEq] at h
    obtain ⟨-, -, h3⟩ := h
    simp [← h3]
  | none =>
    rw [hl] at h
    cases hd : fi.digest with
    | none => rw [hd] at h; simp at h
    | some dd =>
      rw [hd] at h
      simp only [Option.some.injEq, Prod.mk.injEq] at h
      obtain ⟨-, -, h3⟩ := h
      simp [← h3]

/-- C7.  `get_cached_sha256` consults the hash memo before any digest work:
the raw digest routine runs exactly when the memo holds no entry for the
current `path|mtime|size` key, and for a fixed path that key is addressed by
a call if and only if the call sees the same mtime and size — unchanged
stats hit the entry they stored, changed stats cannot.  Hence across two
calls on an unchanged file the raw routine runs at most once in total: the
second call is a memo hit with zero runs and returns the same digest without
changing the memo. -/
theorem C7_theorem (path : String) (fi : FileInfo)
    (hc hc1 : List (String × String)) (d1 : String) (n1 : Nat)
    (h : getCachedSha256 path fi hc = some (d1, hc1, n1)) :
    (n1 = 0 ↔ (hc.lookup (hashKey path fi)).isSome) ∧
    getCachedSha256 path fi hc1 = some (d1, hc1, 0) ∧
    n1 + 0 ≤ 1 ∧
    (∀ fi2 : FileInfo,
      hashKey path fi2 = hashKey path fi ↔
        (fi2.mtime = fi.mtime ∧ fi2.size = fi.size)) :=
  ⟨(getCachedSha256_runs h).1, getCachedSha256_stable h,
   by have := (getCachedSha256_runs h).2; omega,
   fun fi2 =>
     ⟨fun hk => hashKey_stats_inj path fi fi2 hk,
      fun hms => by unfold hashKey; rw [hms.1, hms.2]⟩⟩

/-- C7, witness: a first call from the empty memo runs the digest once,
and the second call on the unchanged file is a pure memo hit. -/
theorem C7_witness :
    getCachedSha256 "m.safetensors" ⟨100, 5, some "abc"⟩ [] =
      some ("abc", [(hashKey "m.safetensors" ⟨100, 5, some "abc"⟩, "abc")], 1) ∧
    ((1 = 0 ↔ (([] : List (String × String)).lookup
        (hashKey "m.safetensors" ⟨100, 5, some "abc"⟩)).isSome) ∧
      getCachedSha256 "m.safetensors" ⟨100, 5, some "abc"⟩
          [(hashKey "m.safetensors" ⟨100, 5, some "abc"⟩, "abc")] =
        some ("abc", [(hashKey "m.safetensors" ⟨100, 5, some "abc"⟩, "abc")], 0) ∧
      1 + 0 ≤ 1 ∧
      (∀ fi2 : FileInfo,
        hashKey "m.safetensors" fi2 =
            hashKey "m.safetensors" ⟨100, 5, some "abc"⟩ ↔
          (fi2.mtime = 100 ∧ fi2.size = 5))) :=
  ⟨by decide,
   C7_theorem "m.safetensors" ⟨100, 5, some "abc"⟩ []
     [(hashKey "m.safetensors" ⟨100, 5, some "abc"⟩, "abc")] "abc" 1 (by decide)⟩

/-!
## Retry behaviour (C2)
-/

/-- C2, counterexample.  With an oracle whose first attempt times out and
whose second would succeed, and a retry budget of 2, the code still performs
exactly one attempt and fails the page, where the claimed retry loop would
succeed on the second attempt: no re-attempt, and hence no 200ms backoff,
exists in the code. -/
theorem C2_counterexample :
    fetchImagesPageModel (fun k => if k = 0 then none else some []) = (none, 1) ∧
    fetchPageSpec (fun k => if k = 0 then none else some []) 2 = (some [], 2) ∧
    fetchImagesPageModel (fun k => if k = 0 then none else some []) ≠
      fetchPageSpec (fun k => if k = 0 then none else some []) 2 :=
  ⟨rfl, rfl, by decide⟩

/-- C2, amended.  Every page fetch is attempted exactly once: the result is
the first attempt's outcome.  The `retries` parameter is accepted but never
consulted — both `execute` variants return identical results, stores and
effect counts for any two values of it — and no backoff exists. -/
theorem C2_theorem :
    (∀ attempts : Nat → Option (List ImageItem),
      fetchImagesPageModel attempts = (attempts 0, 1)) ∧
    (∀ (env : Env) (fk : String) (p : Params) (st : Store) (order : List Nat)
        (r1 r2 : Nat),
      execute env fk { p with retries := r1 } st order =
        execute env fk { p with retries := r2 } st order) ∧
    (∀ (env : Env) (p : Params) (st : Store) (order : List Nat) (r1 r2 : Nat),
      loraExecute env { p with retries := r1 } st order =
        loraExecute env { p with retries := r2 } st order) := by
  refine ⟨fun _ => rfl, ?_, ?_⟩
  · intro env fk p st order r1 r2
    cases p
    rfl
  · intro env p st order r1 r2
    cases p
    rfl

/-!
## Page failure tolerance (C3)
-/

theorem execute_fetch_congr (env env' : Env) (fk : String) (p : Params)
    (st : Store) (order : List Nat)
    (h0 : env'.fullPath = env.fullPath) (h1 : env'.fileInfo = env.fileInfo)
    (h2 : env'.resolve = env.resolve)
    (hf : ∀ vid sortp timeout,
      order.map (fun q => (env'.fetchPage vid q sortp timeout).getD []) =
        order.map (fun q => (env.fetchPage vid q sortp timeout).getD [])) :
    execute env' fk p st order = execute env fk p st order := by
  obtain ⟨f0, f1, f2, f3, f4⟩ := env
  obtain ⟨g0, g1, g2, g3, g4⟩ := env'
  simp only [Env.fullPath, Env.fileInfo, Env.resolve] at h0 h1 h2
  subst h0 h1 h2
  simp only [Env.fetchPage] at hf
  unfold execute aggPos aggNeg
  simp only [Env.fullPath, Env.fileInfo, Env.resolve, Env.fetchPage, hf]

/-- C3.  A page whose fetch raises is indistinguishable from a page that
returns no items: it contributes zero tokens to both aggregates, the
exception never escapes the collection loop, and `execute` returns the same
formatted pair, final store and effect counts as if that page had been
fetched successfully empty — one page's failure never fails the whole
operation. -/
theorem C3_theorem (env : Env) (fk : String) (p : Params) (st : Store)
    (order : List Nat) (pg : Nat)
    (hfail : ∀ vid sortp timeout, env.fetchPage vid pg sortp timeout = none) :
    (∀ vid sortp timeout, (env.fetchPage vid pg sortp timeout).getD [] = []) ∧
    execute { env with fetchPage := fun vid q sortp timeout =>
        if q = pg then some [] else env.fetchPage vid q sortp timeout }
      fk p st order = execute env fk p st order := by
  refine ⟨fun vid sortp timeout => by rw [hfail vid sortp timeout]; exact rfl, ?_⟩
  refine execute_fetch_congr env
    { env with fetchPage := fun vid q sortp timeout =>
        if q = pg then some [] else env.fetchPage vid q sortp timeout }
    fk p st order rfl rfl rfl ?_
  intro vid sortp timeout
  refine List.map_congr_left (fun q _ => ?_)
  show (if q = pg then some [] else env.fetchPage vid q sortp timeout).getD [] =
    (env.fetchPage vid q sortp timeout).getD []
  by_cases hq : q = pg
  · subst hq
    rw [hfail, if_pos rfl]
    exact rfl
  · rw [if_neg hq]

/-- C3, witness: a concrete two-page run where page 2 always raises. -/
theorem C3_witness :
    (∀ vid sortp timeout,
      ((⟨fun _ _ => none, fun _ => none, fun _ _ => none,
          fun _ q _ _ => if q = 2 then none else some [⟨some ⟨"a", "b"⟩⟩],
          fun _ => []⟩ : Env).fetchPage vid 2 sortp timeout).getD [] = []) ∧
    execute ⟨fun _ _ => none, fun _ => none, fun _ _ => none,
        fun vid q sortp timeout => if q = 2 then some []
          else (⟨fun _ _ => none, fun _ => none, fun _ _ => none,
            fun _ q _ _ => if q = 2 then none else some [⟨some ⟨"a", "b"⟩⟩],
            fun _ => []⟩ : Env).fetchPage vid q sortp timeout,
        fun _ => []⟩ "checkpoints" ⟨"x", 20, 2, "Newest", 10, 2, "no"⟩
        ⟨[], [], []⟩ [1, 2] =
      execute ⟨fun _ _ => none, fun _ => none, fun _ _ => none,
        fun _ q _ _ => if q = 2 then none else some [⟨some ⟨"a", "b"⟩⟩],
        fun _ => []⟩ "checkpoints" ⟨"x", 20, 2, "Newest", 10, 2, "no"⟩
        ⟨[], [], []⟩ [1, 2] :=
  C3_theorem ⟨fun _ _ => none, fun _ => none, fun _ _ => none,
      fun _ q _ _ => if q = 2 then none else some [⟨some ⟨"a", "b"⟩⟩],
      fun _ => []⟩ "checkpoints" ⟨"x", 20, 2, "Newest", 10, 2, "no"⟩
    ⟨[], [], []⟩ [1, 2] 2 (fun _ _ _ => rfl)

/-!
## Total, non-raising execute (C8)
-/

/-- C8, counterexample.  On a missing local file the LoRA `execute` returns
four empty strings: the two trigger outputs are `""`, not the placeholder
strings the claim promises for the LoRA variant. -/
theorem C8_counterexample :
    (loraExecute ⟨fun _ _ => none, fun _ => none, fun _ _ => none,
        fun _ _ _ _ => none, fun _ => []⟩
      ⟨"x", 20, 3, "Most Reactions", 10, 2, "no"⟩ ⟨[], [], []⟩ [1, 2, 3]) =
      ⟨"", "", "", "", ⟨[], [], []⟩, ⟨0, 0, 0⟩⟩ ∧
    ("" : String) ≠ metaPlaceholder ∧ ("" : String) ≠ civPlaceholder :=
  ⟨rfl, by decide, by decide⟩

/-- C8, amended.  `execute` is total and the by-hash resolution is attempted
at most once per invocation.  On a missing/unopenable file, a failed digest
computation, or a failed/unusable remote lookup, the base `execute` returns
a pair of empty strings immediately — in the two local-failure cases without
any remote traffic, and in the resolution case after exactly one lookup and
zero page fetches, never retrying it.  The LoRA variant returns four empty
strings on a missing file (placeholders arise only when the trigger step
itself ran and found nothing). -/
theorem C8_theorem :
    (∀ env fk p st order, (execute env fk p st order).eff.resolveCalls ≤ 1) ∧
    (∀ env fk p st order, env.fullPath fk p.file_name = none →
      execute env fk p st order = ⟨"", "", st, ⟨0, 0, 0⟩⟩) ∧
    (∀ env fk p st order path fi,
      env.fullPath fk p.file_name = some path → path ≠ "" →
      env.fileInfo path = some fi → fi.digest = none →
      st.hashCache.lookup (hashKey path fi) = none →
      execute env fk p st order = ⟨"", "", st, ⟨2, 0, 0⟩⟩) ∧
    (∀ env fk p st order path fi d hc n,
      env.fullPath fk p.file_name = some path → path ≠ "" →
      env.fileInfo path = some fi →
      getCachedSha256 path fi st.hashCache = some (d, hc, n) →
      (p.force_refresh ≠ "no" ∨
        st.resultCache.lookup (resultCacheKey d p.sort p.max_pages) = none) →
      env.resolve d p.timeout = none →
      execute env fk p st order =
        ⟨"", "", { st with hashCache := hc }, ⟨n, 1, 0⟩⟩) ∧
    (∀ env p st order, env.fullPath "loras" p.file_name = none →
      loraExecute env p st order = ⟨"", "", "", "", st, ⟨0, 0, 0⟩⟩) := by
  refine ⟨?_, ?_, ?_, ?_, ?_⟩
  · intro env fk p st order
    unfold execute
    repeat' split
    all_goals try simp
    all_goals split <;> simp
  · intro env fk p st order h
    simp only [execute, h]
  · intro env fk p st order path fi hfp hne hfi hdig hlk
    have hgc : getCachedSha256 path fi st.hashCache = none := by
      unfold getCachedSha256
      rw [hlk, hdig]
    simp only [execute, hfp, hfi, hgc, if_neg hne]
  · intro env fk p st order path fi d hc n hfp hne hfi hgc hmiss hres
    have hif : (if p.force_refresh = "no"
        then List.lookup (resultCacheKey d p.sort p.max_pages) st.resultCache
        else none) = none := by
      rcases hmiss with hfr | hmiss
      · rw [if_neg hfr]
      · split
        · exact hmiss
        · rfl
    simp only [execute, hfp, hfi, hgc, if_neg hne, hif, hres]
  · intro env p st order h
    simp only [loraExecute, h]

/-- C8, witness: a run where the remote hash lookup fails does exactly one
lookup, no page fetches, and returns the empty pair. -/
theorem C8_witness :
    execute ⟨fun _ _ => some "p", fun _ => some ⟨1, 2, some "d"⟩,
        fun _ _ => none, fun _ _ _ _ => none, fun _ => []⟩
      "checkpoints" ⟨"x", 20, 3, "Most Reactions", 10, 2, "no"⟩ ⟨[], [], []⟩
      [1, 2, 3] =
      ⟨"", "", ⟨[(hashKey "p" ⟨1, 2, some "d"⟩, "d")], [], []⟩, ⟨1, 1, 0⟩⟩ :=
  C8_theorem.2.2.2.1 ⟨fun _ _ => some "p", fun _ => some ⟨1, 2, some "d"⟩,
      fun _ _ => none, fun _ _ _ _ => none, fun _ => []⟩
    "checkpoints" ⟨"x", 20, 3, "Most Reactions", 10, 2, "no"⟩ ⟨[], [], []⟩
    [1, 2, 3] "p" ⟨1, 2, some "d"⟩ "d"
    [(hashKey "p" ⟨1, 2, some "d"⟩, "d")] 1 rfl (by decide) rfl (by decide)
    (Or.inr rfl) rfl

/-!
## Execute path lemmas

One lemma per control path of `execute`, used by the cache-determinism and
refinement claims below.
-/

theorem execute_hit (env : Env) (fk : String) (p : Params) (st : Store)
    (order : List Nat) (path : String) (fi : FileInfo) (d : String)
    (hc : List (String × String)) (n : Nat) (entry : CountList × CountList)
    (hfp : env.fullPath fk p.file_name = some path) (hne : path ≠ "")
    (hfi : env.fileInfo path = some fi)
    (hgc : getCachedSha256 path fi st.hashCache = some (d, hc, n))
    (hE : (if p.force_refresh = "no"
        then List.lookup (resultCacheKey d p.sort p.max_pages) st.resultCache
        else none) = some entry) :
    execute env fk p st order =
      ⟨formatTagsWithCounts entry.1 p.top_n, formatTagsWithCounts entry.2 p.top_n,
       ⟨hc, st.resultCache, st.triggerCache⟩, ⟨n, 0, 0⟩⟩ := by
  simp [execute, hfp, hne, hfi, hgc, hE]

theorem execute_resolve_fail (env : Env) (fk : String) (p : Params) (st : Store)
    (order : List Nat) (path : String) (fi : FileInfo) (d : String)
    (hc : List (String × String)) (n : Nat)
    (hfp : env.fullPath fk p.file_name = some path) (hne : path ≠ "")
    (hfi : env.fileInfo path = some fi)
    (hgc : getCachedSha256 path fi st.hashCache = some (d, hc, n))
    (hE : (if p.force_refresh = "no"
        then List.lookup (resultCacheKey d p.sort p.max_pages) st.resultCache
        else none) = none)
    (hres : env.resolve d p.timeout = none) :
    execute env fk p st order =
      ⟨"", "", ⟨hc, st.resultCache, st.triggerCache⟩, ⟨n, 1, 0⟩⟩ := by
  simp [execute, hfp, hne, hfi, hgc, hE, hres]

theorem execute_id_unusable (env : Env) (fk : String) (p : Params) (st : Store)
    (order : List Nat) (path : String) (fi : FileInfo) (d : String)
    (hc : List (String × String)) (n : Nat) (info : ModelInfo)
    (hfp : env.fullPath fk p.file_name = some path) (hne : path ≠ "")
    (hfi : env.fileInfo path = some fi)
    (hgc : getCachedSha256 path fi st.hashCache = some (d, hc, n))
    (hE : (if p.force_refresh = "no"
        then List.lookup (resultCacheKey d p.sort p.max_pages) st.resultCache
        else none) = none)
    (hres : env.resolve d p.timeout = some info)
    (hid : info.id = none ∨ info.id = some 0) :
    execute env fk p st order =
      ⟨"", "", ⟨hc, st.resultCache, st.triggerCache⟩, ⟨n, 1, 0⟩⟩ := by
  rcases hid with hid | hid <;> simp [execute, hfp, hne, hfi, hgc, hE, hres, hid]

theorem execute_fetch_success (env : Env) (fk : String) (p : Params) (st : Store)
    (order : List Nat) (path : String) (fi : FileInfo) (d : String)
    (hc : List (String × String)) (n : Nat) (info : ModelInfo) (vid : Nat)
    (hfp : env.fullPath fk p.file_name = some path) (hne : path ≠ "")
    (hfi : env.fileInfo path = some fi)
    (hgc : getCachedSha256 path fi st.hashCache = some (d, hc, n))
    (hE : (if p.force_refresh = "no"
        then List.lookup (resultCacheKey d p.sort p.max_pages) st.resultCache
        else none) = none)
    (hres : env.resolve d p.timeout = some info)
    (hid : info.id = some vid) (hv : vid ≠ 0) :
    execute env fk p st order =
      ⟨formatTagsWithCounts (aggPos env vid (sortParam p.sort) p.timeout order) p.top_n,
       formatTagsWithCounts (aggNeg env vid (sortParam p.sort) p.timeout order) p.top_n,
       ⟨hc, (resultCacheKey d p.sort p.max_pages,
          (aggPos env vid (sortParam p.sort) p.timeout order,
           aggNeg env vid (sortParam p.sort) p.timeout order)) :: st.resultCache,
        st.triggerCache⟩,
       ⟨n, 1, order.length⟩⟩ := by
  simp [execute, hfp, hne, hfi, hgc, hE, hres, hid, hv]

/-!
## Cache-hit determinism (C1)
-/

/-- C1.  With `force_refresh = "no"` and identical parameters, once a first
invocation has left (or found) a result-cache entry for its key, the second
invocation resolves nothing and fetches no pages — zero remote requests — and
returns exactly the first invocation's formatted (positive, negative) pair,
whatever the two invocations' page arrival orders were. -/
theorem C1_theorem (env : Env) (fk : String) (p : Params) (st0 : Store)
    (order1 order2 : List Nat) (path : String) (fi : FileInfo) (d : String)
    (hc1 : List (String × String)) (n1 : Nat)
    (hfr : p.force_refresh = "no")
    (hfp : env.fullPath fk p.file_name = some path) (hne : path ≠ "")
    (hfi : env.fileInfo path = some fi)
    (hgc : getCachedSha256 path fi st0.hashCache = some (d, hc1, n1))
    (hpop : (List.lookup (resultCacheKey d p.sort p.max_pages)
      (execute env fk p st0 order1).store.resultCache).isSome) :
    (execute env fk p (execute env fk p st0 order1).store order2).eff.resolveCalls = 0 ∧
    (execute env fk p (execute env fk p st0 order1).store order2).eff.pageFetches = 0 ∧
    (execute env fk p (execute env fk p st0 order1).store order2).pos =
      (execute env fk p st0 order1).pos ∧
    (execute env fk p (execute env fk p st0 order1).store order2).neg =
      (execute env fk p st0 order1).neg := by
  have hgc2 := getCachedSha256_stable hgc
  cases hE : List.lookup (resultCacheKey d p.sort p.max_pages) st0.resultCache with
  | some entry =>
    have h1 := execute_hit env fk p st0 order1 path fi d hc1 n1 entry hfp hne hfi
      hgc ((if_pos hfr).trans hE)
    have h2 := execute_hit env fk p ⟨hc1, st0.resultCache, st0.triggerCache⟩
      order2 path fi d hc1 0 entry hfp hne hfi hgc2 ((if_pos hfr).trans hE)
    rw [h1]
    rw [show (⟨formatTagsWithCounts entry.1 p.top_n,
        formatTagsWithCounts entry.2 p.top_n,
        ⟨hc1, st0.resultCache, st0.triggerCache⟩, ⟨n1, 0, 0⟩⟩ : ExecOut).store =
      ⟨hc1, st0.resultCache, st0.triggerCache⟩ from rfl, h2]
    exact ⟨rfl, rfl, rfl, rfl⟩
  | none =>
    cases hres : env.resolve d p.timeout with
    | none =>
      exfalso
      have h1 := execute_resolve_fail env fk p st0 order1 path fi d hc1 n1
        hfp hne hfi hgc ((if_pos hfr).trans hE) hres
      rw [h1] at hpop
      simp [hE] at hpop
    | some info =>
      cases hid : info.id with
      | none =>
        exfalso
        have h1 := execute_id_unusable env fk p st0 order1 path fi d hc1 n1 info
          hfp hne hfi hgc ((if_pos hfr).trans hE) hres (Or.inl hid)
        rw [h1] at hpop
        simp [hE] at hpop
      | some vid =>
        by_cases hv : vid = 0
        · exfalso
          subst hv
          have h1 := execute_id_unusable env fk p st0 order1 path fi d hc1 n1 info
            hfp hne hfi hgc ((if_pos hfr).trans hE) hres (Or.inr hid)
          rw [h1] at hpop
          simp [hE] at hpop
        · have h1 := execute_fetch_success env fk p st0 order1 path fi d hc1 n1
            info vid hfp hne hfi hgc ((if_pos hfr).trans hE) hres hid hv
          have h2 := execute_hit env fk p
            ⟨hc1, (resultCacheKey d p.sort p.max_pages,
              (aggPos env vid (sortParam p.sort) p.timeout order1,
               aggNeg env vid (sortParam p.sort) p.timeout order1)) :: st0.resultCache,
             st0.triggerCache⟩ order2 path fi d hc1 0
            (aggPos env vid (sortParam p.sort) p.timeout order1,
             aggNeg env vid (sortParam p.sort) p.timeout order1)
            hfp hne hfi hgc2 ((if_pos hfr).trans (List.lookup_cons_self))
          rw [h1]
          rw [show (⟨formatTagsWithCounts (aggPos env vid (sortParam p.sort) p.timeout order1) p.top_n,
              formatTagsWithCounts (aggNeg env vid (sortParam p.sort) p.timeout order1) p.top_n,
              ⟨hc1, (resultCacheKey d p.sort p.max_pages,
                (aggPos env vid (sortParam p.sort) p.timeout order1,
                 aggNeg env vid (sortParam p.sort) p.timeout order1)) :: st0.resultCache,
               st0.triggerCache⟩,
              ⟨n1, 1, order1.length⟩⟩ : ExecOut).store =
            ⟨hc1, (resultCacheKey d p.sort p.max_pages,
              (aggPos env vid (sortParam p.sort) p.timeout order1,
               aggNeg env vid (sortParam p.sort) p.timeout order1)) :: st0.resultCache,
             st0.triggerCache⟩ from rfl, h2]
          exact ⟨rfl, rfl, rfl, rfl⟩

/-- C1, witness: a concrete run whose first invocation fetches one page and
populates the cache; the second invocation is a pure cache hit. -/
theorem C1_witness :
    (List.lookup (resultCacheKey "d" "Newest" 1)
      (execute ⟨fun _ _ => some "p", fun _ => some ⟨1, 2, some "d"⟩,
          fun _ _ => some ⟨some 7, none⟩, fun _ _ _ _ => some [⟨some ⟨"a", "b"⟩⟩],
          fun _ => []⟩ "checkpoints" ⟨"x", 20, 1, "Newest", 10, 2, "no"⟩
        ⟨[], [], []⟩ [1]).store.resultCache).isSome ∧
    ((execute ⟨fun _ _ => some "p", fun _ => some ⟨1, 2, some "d"⟩,
          fun _ _ => some ⟨some 7, none⟩, fun _ _ _ _ => some [⟨some ⟨"a", "b"⟩⟩],
          fun _ => []⟩ "checkpoints" ⟨"x", 20, 1, "Newest", 10, 2, "no"⟩
        (execute ⟨fun _ _ => some "p", fun _ => some ⟨1, 2, some "d"⟩,
            fun _ _ => some ⟨some 7, none⟩, fun _ _ _ _ => some [⟨some ⟨"a", "b"⟩⟩],
            fun _ => []⟩ "checkpoints" ⟨"x", 20, 1, "Newest", 10, 2, "no"⟩
          ⟨[], [], []⟩ [1]).store [1]).eff.resolveCalls = 0 ∧
      (execute ⟨fun _ _ => some "p", fun _ => some ⟨1, 2, some "d"⟩,
          fun _ _ => some ⟨some 7, none⟩, fun _ _ _ _ => some [⟨some ⟨"a", "b"⟩⟩],
          fun _ => []⟩ "checkpoints" ⟨"x", 20, 1, "Newest", 10, 2, "no"⟩
        (execute ⟨fun _ _ => some "p", fun _ => some ⟨1, 2, some "d"⟩,
            fun _ _ => some ⟨some 7, none⟩, fun _ _ _ _ => some [⟨some ⟨"a", "b"⟩⟩],
            fun _ => []⟩ "checkpoints" ⟨"x", 20, 1, "Newest", 10, 2, "no"⟩
          ⟨[], [], []⟩ [1]).store [1]).eff.pageFetches = 0 ∧
      (execute ⟨fun _ _ => some "p", fun _ => some ⟨1, 2, some "d"⟩,
          fun _ _ => some ⟨some 7, none⟩, fun _ _ _ _ => some [⟨some ⟨"a", "b"⟩⟩],
          fun _ => []⟩ "checkpoints" ⟨"x", 20, 1, "Newest", 10, 2, "no"⟩
        (execute ⟨fun _ _ => some "p", fun _ => some ⟨1, 2, some "d"⟩,
            fun _ _ => some ⟨some 7, none⟩, fun _ _ _ _ => some [⟨some ⟨"a", "b"⟩⟩],
            fun _ => []⟩ "checkpoints" ⟨"x", 20, 1, "Newest", 10, 2, "no"⟩
          ⟨[], [], []⟩ [1]).store [1]).pos =
        (execute ⟨fun _ _ => some "p", fun _ => some ⟨1, 2, some "d"⟩,
            fun _ _ => some ⟨some 7, none⟩, fun _ _ _ _ => some [⟨some ⟨"a", "b"⟩⟩],
            fun _ => []⟩ "checkpoints" ⟨"x", 20, 1, "Newest", 10, 2, "no"⟩
          ⟨[], [], []⟩ [1]).pos ∧
      (execute ⟨fun _ _ => some "p", fun _ => some ⟨1, 2, some "d"⟩,
          fun _ _ => some ⟨some 7, none⟩, fun _ _ _ _ => some [⟨some ⟨"a", "b"⟩⟩],
          fun _ => []⟩ "checkpoints" ⟨"x", 20, 1, "Newest", 10, 2, "no"⟩
        (execute ⟨fun _ _ => some "p", fun _ => some ⟨1, 2, some "d"⟩,
            fun _ _ => some ⟨some 7, none⟩, fun _ _ _ _ => some [⟨some ⟨"a", "b"⟩⟩],
            fun _ => []⟩ "checkpoints" ⟨"x", 20, 1, "Newest", 10, 2, "no"⟩
          ⟨[], [], []⟩ [1]).store [1]).neg =
        (execute ⟨fun _ _ => some "p", fun _ => some ⟨1, 2, some "d"⟩,
            fun _ _ => some ⟨some 7, none⟩, fun _ _ _ _ => some [⟨some ⟨"a", "b"⟩⟩],
            fun _ => []⟩ "checkpoints" ⟨"x", 20, 1, "Newest", 10, 2, "no"⟩
          ⟨[], [], []⟩ [1]).neg) :=
  ⟨by decide,
   C1_theorem ⟨fun _ _ => some "p", fun _ => some ⟨1, 2, some "d"⟩,
      fun _ _ => some ⟨some 7, none⟩, fun _ _ _ _ => some [⟨some ⟨"a", "b"⟩⟩],
      fun _ => []⟩ "checkpoints" ⟨"x", 20, 1, "Newest", 10, 2, "no"⟩
    ⟨[], [], []⟩ [1] [1] "p" ⟨1, 2, some "d"⟩ "d"
    [(hashKey "p" ⟨1, 2, some "d"⟩, "d")] 1 rfl rfl (by decide) rfl (by decide)
    (by decide)⟩

/-!
## LoRA refinement (C10)
-/

theorem execute_posneg_hashCache (env : Env) (fk : String) (p : Params)
    (order : List Nat) (st : Store) (tc' : List (String × List String))
    (path : String) (fi : FileInfo) (d : String) (hc : List (String × String))
    (n : Nat)
    (hfp : env.fullPath fk p.file_name = some path) (hne : path ≠ "")
    (hfi : env.fileInfo path = some fi)
    (hgc : getCachedSha256 path fi st.hashCache = some (d, hc, n)) :
    (execute env fk p ⟨hc, st.resultCache, tc'⟩ order).pos =
      (execute env fk p st order).pos ∧
    (execute env fk p ⟨hc, st.resultCache, tc'⟩ order).neg =
      (execute env fk p st order).neg := by
  have hgc2 := getCachedSha256_stable hgc
  cases hE : (if p.force_refresh = "no"
      then List.lookup (resultCacheKey d p.sort p.max_pages) st.resultCache
      else none) with
  | some entry =>
    rw [execute_hit env fk p st order path fi d hc n entry hfp hne hfi hgc hE,
      execute_hit env fk p ⟨hc, st.resultCache, tc'⟩ order path fi d hc 0 entry
        hfp hne hfi hgc2 hE]
    exact ⟨rfl, rfl⟩
  | none =>
    cases hres : env.resolve d p.timeout with
    | none =>
      rw [execute_resolve_fail env fk p st order path fi d hc n
          hfp hne hfi hgc hE hres,
        execute_resolve_fail env fk p ⟨hc, st.resultCache, tc'⟩ order path fi d
          hc 0 hfp hne hfi hgc2 hE hres]
      exact ⟨rfl, rfl⟩
    | some info =>
      cases hid : info.id with
      | none =>
        rw [execute_id_unusable env fk p st order path fi d hc n info
            hfp hne hfi hgc hE hres (Or.inl hid),
          execute_id_unusable env fk p ⟨hc, st.resultCache, tc'⟩ order path fi d
            hc 0 info hfp hne hfi hgc2 hE hres (Or.inl hid)]
        exact ⟨rfl, rfl⟩
      | some vid =>
        by_cases hv : vid = 0
        · subst hv
          rw [execute_id_unusable env fk p st order path fi d hc n info
              hfp hne hfi hgc hE hres (Or.inr hid),
            execute_id_unusable env fk p ⟨hc, st.resultCache, tc'⟩ order path fi
              d hc 0 info hfp hne hfi hgc2 hE hres (Or.inr hid)]
          exact ⟨rfl, rfl⟩
        · rw [execute_fetch_success env fk p st order path fi d hc n info vid
              hfp hne hfi hgc hE hres hid hv,
            execute_fetch_success env fk p ⟨hc, st.resultCache, tc'⟩ order path
              fi d hc 0 info vid hfp hne hfi hgc2 hE hres hid hv]
          exact ⟨rfl, rfl⟩

/-- C10.  For the same arguments, store and remote responses, the first two
outputs of the LoRA variant's `execute` are exactly the pair the base
(checkpoint) `execute` returns on those arguments with the `loras` folder
key: the LoRA variant only appends its two trigger-word strings and never
alters the shared pipeline's formatted results. -/
theorem C10_theorem (env : Env) (p : Params) (st : Store) (order : List Nat) :
    (loraExecute env p st order).pos = (execute env "loras" p st order).pos ∧
    (loraExecute env p st order).neg = (execute env "loras" p st order).neg := by
  cases hfp : env.fullPath "loras" p.file_name with
  | none => constructor <;> simp [loraExecute, execute, hfp]
  | some path =>
    by_cases hne : path = ""
    · constructor <;> simp [loraExecute, execute, hfp, hne]
    · cases hfi : env.fileInfo path with
      | none => constructor <;> simp [loraExecute, execute, hfp, hne, hfi]
      | some fi =>
        cases hgc : getCachedSha256 path fi st.hashCache with
        | none =>
          constructor <;> simp [loraExecute, hfp, hne, hfi, hgc]
        | some trip =>
          obtain ⟨d, hc, n⟩ := trip
          have hpn := execute_posneg_hashCache env "loras" p order st
            ((getCivitaiTriggers env p.file_name d p.force_refresh
              st.triggerCache).2.1) path fi d hc n hfp hne hfi hgc
          constructor
          · rw [← hpn.1]
            simp [loraExecute, hfp, hne, hfi, hgc]
          · rw [← hpn.2]
            simp [loraExecute, hfp, hne, hfi, hgc]

end Civitai
